import Mathlib

/-!
# Verification of the agent-os capability-gated execution core

A shallow embedding of the core of the `agent_os` Python package
(`core/models.py`, `core/capabilities.py`, `core/sandbox.py`,
`core/messaging.py`, `tools/registry.py`, `runtime/engine.py`) together
with proofs of the specified properties.

Modelling conventions:
* Python strings are `List Char` (`Str`); Python's `str.split`,
  `str.startswith`, `str.endswith` and `s[:-1]` are given structurally
  recursive models (`pySplit`, `startsWith`, `endsWith`, `List.dropLast`).
* Python dicts are association lists with first-key-wins lookup
  (`dictGet`/`dictSet`/`dictDel`).
* Fallible code returns `Except`; code that awaits an external effect
  (a subprocess, the inference service, an async future) takes the
  effect's outcome as an explicit argument.
* Logging, audit-event emission and timing fields do not influence any
  modelled result and are omitted.
-/

namespace AgentOS

/-- Python strings, modelled as lists of characters. -/
abbrev Str := List Char

/-- Model of Python's `str.split(sep)` for a one-character separator:
`pySplit ':' "a:b" = ["a","b"]`, `pySplit ':' "" = [""]`,
`pySplit ':' "::r" = ["","","r"]`. -/
def pySplit (sep : Char) : Str → List Str
  | [] => [[]]
  | c :: rest =>
    match pySplit sep rest with
    | [] => [[]]
    | h :: t => if c == sep then [] :: h :: t else (c :: h) :: t

/-- Model of Python's `s.startswith(p)`. -/
def startsWith (s p : Str) : Bool := p.isPrefixOf s

/-- Model of Python's `s.endswith(p)`. -/
def endsWith (s p : Str) : Bool := p.isSuffixOf s

/-- Model of Python's `sep.join(xs)` for `sep = ","`. -/
def joinComma : List Str → Str
  | [] => []
  | [a] => a
  | a :: rest => a ++ ',' :: joinComma rest

/-- Python dict lookup on an association list (first binding wins). -/
def dictGet {α : Type _} : List (Str × α) → Str → Option α
  | [], _ => none
  | e :: rest, k => if e.1 == k then some e.2 else dictGet rest k

/-- Python dict assignment: replace the first binding of the key, or append. -/
def dictSet {α : Type _} : List (Str × α) → Str → α → List (Str × α)
  | [], k, v => [(k, v)]
  | e :: rest, k, v => if e.1 == k then (k, v) :: rest else e :: dictSet rest k v

/-- Python `del d[k]`: remove the key's bindings. -/
def dictDel {α : Type _} : List (Str × α) → Str → List (Str × α)
  | [], _ => []
  | e :: rest, k => if e.1 == k then dictDel rest k else e :: dictDel rest k

/-! ## Capability model (`core/models.py`)

The `constraints` field (`dict[str, Any]`, never set by `parse` and never
read by `matches` or the capability manager) is omitted. -/

structure Capability where
  resource : Str
  path : Str
  actions : List Str
deriving DecidableEq, Repr

/-- `Capability.parse`: parse a capability string like `file:/home/*:read,write`.
Raising `ValueError` is modelled by `Except.error`. -/
def Capability.parse (capability_string : Str) : Except Str Capability :=
  let parts := pySplit ':' capability_string
  if parts.length < 2 then
    .error ("Invalid capability format: ".toList ++ capability_string)
  else
    let resource := parts.getD 0 []
    let path := if parts.length > 1 then parts.getD 1 [] else "*".toList
    let actions := if parts.length > 2 then pySplit ',' (parts.getD 2 []) else ["*".toList]
    .ok { resource := resource, path := path, actions := actions }

/-- `Capability.matches`: check if this capability grants access.
The two nested early returns of the path check are folded into one guard:
the Python code returns `False` when `path != "*"` and either the stored
path ends with `"*"` but the request does not start with its trimmed
form, or it does not end with `"*"` and differs from the request. -/
def Capability.matches (c : Capability) (resource path action : Str) : Bool :=
  -- Check resource
  if c.resource != "*".toList && c.resource != resource then false
  -- Check path (simple glob matching)
  else if c.path != "*".toList &&
      !(if endsWith c.path "*".toList then startsWith path c.path.dropLast
        else c.path == path) then false
  -- Check action
  else if !(c.actions.contains "*".toList) && !(c.actions.contains action) then false
  else true

/-- `Capability.__str__`: `resource:path:action1,action2`. -/
def Capability.toStr (c : Capability) : Str :=
  c.resource ++ ':' :: c.path ++ ':' :: joinComma c.actions

/-- Result of checking a capability (`CapabilityCheck` in `core/models.py`). -/
structure CapabilityCheck where
  allowed : Bool
  capability : Option Capability := none
  reason : Str := []
deriving DecidableEq, Repr

/-- Reference matcher, written from the spec's words (§4.1): a capability
matches iff (resource is `"*"` or equals the requested resource) and
(path is `"*"`, or the requested path equals it, or — if the stored path
ends with `"*"` — the requested path has that trimmed prefix) and
(`"*"` is in the actions or the requested action is). -/
def specMatches (c : Capability) (resource path action : Str) : Prop :=
  (c.resource = "*".toList ∨ c.resource = resource) ∧
  (c.path = "*".toList ∨ path = c.path ∨
    (endsWith c.path "*".toList = true ∧ startsWith path c.path.dropLast = true)) ∧
  ("*".toList ∈ c.actions ∨ action ∈ c.actions)

instance (c : Capability) (resource path action : Str) :
    Decidable (specMatches c resource path action) := by
  unfold specMatches
  exact inferInstance

/-! ## Capability manager (`core/capabilities.py`)

The manager's mutable state is its `_agent_capabilities` dict; the audit
log and `structlog` calls never influence a returned value and are
omitted. Each method becomes a function on the table. -/

/-- `CapabilityManager._agent_capabilities : dict[str, list[Capability]]`. -/
abbrev CapTable := List (Str × List Capability)

/-- The grants held for an agent (`self._agent_capabilities.get(agent_id, [])`). -/
def lookupCaps (t : CapTable) (agent_id : Str) : List Capability :=
  (dictGet t agent_id).getD []

/-- `CapabilityManager.grant`: create the agent's (possibly empty) entry
and append the capability. -/
def grant (t : CapTable) (agent_id : Str) (c : Capability) : CapTable :=
  dictSet t agent_id (lookupCaps t agent_id ++ [c])

/-- `CapabilityManager.revoke_all`: delete the agent's entry. -/
def revoke_all (t : CapTable) (agent_id : Str) : CapTable :=
  dictDel t agent_id

/-- The loop body of `CapabilityManager.check`: scan the grants in order,
returning on the first match. -/
def checkList (caps : List Capability) (resource path action : Str) : CapabilityCheck :=
  match caps with
  | [] =>
    { allowed := false,
      reason := "No capability grants ".toList ++ resource ++ ':' :: path ++ ':' :: action }
  | cap :: rest =>
    if cap.matches resource path action then
      { allowed := true, capability := some cap,
        reason := "Granted by capability: ".toList ++ cap.toStr }
    else checkList rest resource path action

/-- `CapabilityManager.check`. -/
def check (t : CapTable) (agent_id resource path action : Str) : CapabilityCheck :=
  checkList (lookupCaps t agent_id) resource path action

/-! ## Sandbox (`core/sandbox.py`)

`check_path_allowed` first applies `os.path.expanduser` and
`os.path.abspath` to every path; these OS library functions are modelled
by an explicit `expand : Str → Str` argument (their composition), so the
theorems hold for every expansion function and in particular for the real
one. `expandHome home` is a concrete instance used for evaluation: it
performs the `~`-substitution of `expanduser` and is the identity on the
already-absolute, already-normal paths appearing in the properties. -/

/-- `FilesystemPolicy` with its default field values.  `allow_temp_files`
and `temp_dir` only affect scratch-directory creation, not path checks. -/
structure FilesystemPolicy where
  allowed_read_paths : List Str := []
  allowed_write_paths : List Str := []
  denied_paths : List Str :=
    ["/etc/passwd".toList, "/etc/shadow".toList, "/etc/sudoers".toList,
     "~/.ssh".toList, "~/.gnupg".toList, "~/.aws".toList, "~/.config".toList]

/-- Concrete model of `os.path.abspath(os.path.expanduser(s))` for a home
directory `home`: substitute a leading `~`, leave absolute paths alone. -/
def expandHome (home : Str) (s : Str) : Str :=
  if startsWith s "~".toList then home ++ s.drop 1 else s

/-- `SandboxManager.check_path_allowed`: denied paths first (prefix or
equality on expanded paths), then the action's allow list; an empty allow
list allows everything not denied. -/
def check_path_allowed (expand : Str → Str) (path : Str) (policy : FilesystemPolicy)
    (action : Str) : Bool × Option Str :=
  let p := expand path
  match policy.denied_paths.find? (fun d => startsWith p (expand d) || p == expand d) with
  | some _ => (false, some ("Path ".toList ++ p ++ " is in denied list".toList))
  | none =>
    let allowed_paths := if action == "read".toList then policy.allowed_read_paths
                         else policy.allowed_write_paths
    if allowed_paths.isEmpty then (true, none)
    else if allowed_paths.any (fun al => startsWith p (expand al) || p == expand al) then
      (true, none)
    else (false, some ("Path ".toList ++ p ++ " not in allowed list for ".toList ++ action))

/-- `ResourceLimits`.  The Python floats are modelled as naturals; only
`max_wall_seconds` influences any modelled result (it is interpolated
into the timeout violation message). -/
structure ResourceLimits where
  max_cpu_seconds : Nat := 30
  max_wall_seconds : Nat := 60
  max_memory_mb : Nat := 512
  max_processes : Nat := 10
  max_file_size_mb : Nat := 100
  max_open_files : Nat := 100

/-- `SandboxConfig` restricted to the fields read by the modelled
operations (`policy`, `network`, environment and working-directory
settings only affect the spawned OS process, not the result logic). -/
structure SandboxConfig where
  resources : ResourceLimits := {}
  filesystem : FilesystemPolicy := {}

/-- `SandboxResult`. `duration_seconds`/`resource_usage` are wall-clock
measurements and are omitted. -/
structure SandboxResult where
  success : Bool
  output : Str := []
  error : Str := []
  exit_code : Int := 0
  violations : List Str := []
deriving DecidableEq, Repr

/-- Outcome of the spawned child process, the external effect of
`execute_command`: it either completes (with an exit code and output),
exceeds the wall-clock limit (`asyncio.TimeoutError`, after which the
code kills and reaps it), or the setup/spawn raises. -/
inductive ProcOutcome
  | completed (exit_code : Int) (stdout stderr : Str)
  | timedOut
  | spawnFailed (msg : Str)
deriving DecidableEq, Repr

/-- The timeout violation recorded by `execute_command`. -/
def wallTimeViolation (max_wall_seconds : Nat) : Str :=
  "Exceeded wall time limit of ".toList ++ (toString max_wall_seconds).toList ++ "s".toList

/-- `SandboxManager.execute_command`: race the child process against
`resources.max_wall_seconds` and build the `SandboxResult`.  On timeout
the process is killed and reaped (the `timedOut` branch), `stdout` is
replaced by `b""`, the exit code is `-signal.SIGKILL = -9` and the
violation is recorded; `success` is `exit_code == 0 and not violations`.
A raised setup error yields the `except Exception` result. -/
def execute_command (command : Str) (config : SandboxConfig) (proc : ProcOutcome) :
    SandboxResult :=
  match proc with
  | .spawnFailed msg =>
    { success := false, error := msg, exit_code := -1,
      violations := ["Execution error: ".toList ++ msg] }
  | _ =>
    let violations : List Str :=
      match proc with
      | .timedOut => [wallTimeViolation config.resources.max_wall_seconds]
      | _ => []
    let stdout : Str := match proc with
      | .completed _ out _ => out
      | _ => []
    let stderr : Str := match proc with
      | .completed _ _ err => err
      | _ => "Execution timed out".toList
    let exit_code : Int := match proc with
      | .completed code _ _ => code
      | _ => -9
    { success := exit_code == 0 && violations.isEmpty,
      output := stdout, error := stderr, exit_code := exit_code,
      violations := violations }

/-! ## Message bus (`core/messaging.py`)

The bus state is explicit.  Message/event ids come from `uuid4` in the
source; id generation is modelled by passing the fresh id as an argument.
An `asyncio.Future` is modelled as the `Option Message` stored in the
pending-requests dict: `none` is an unresolved future, `some r` a future
resolved with `r`.  A subscribed handler is a function returning
`Except Str Unit`, whose `error` case models a raised exception. -/

inductive MessageType
  | request | response | event | stream
deriving DecidableEq, Repr

/-- Message payloads (`dict` in Python) as association lists. -/
abbrev Payload := List (Str × Str)

structure Message where
  id : Str
  type : MessageType
  sender_id : Str
  recipient_id : Option Str := none
  payload : Payload := []
  reply_to : Option Str := none
deriving DecidableEq, Repr

/-- `Event` (`core/models.py`); its own uuid id and timestamp are omitted. -/
structure Event where
  type : Str
  agent_id : Option Str := none
  data : Payload := []
deriving DecidableEq, Repr

abbrev EventHandler := Event → Except Str Unit

/-- The mutable state of `MessageBus`: per-agent queues, event
subscriptions and pending requests.  The bounded `_history` debug buffer
and the `_handlers` dict (never consulted by the modelled operations)
are omitted. -/
structure BusState where
  queues : List (Str × List Message) := []
  event_subscriptions : List (Str × List (Str × EventHandler)) := []
  pending_requests : List (Str × Option Message) := []

/-- `MessageBus.register_agent`: give the agent a fresh empty queue. -/
def register_agent (st : BusState) (agent_id : Str) : BusState :=
  { st with queues := dictSet st.queues agent_id [] }

/-- `MessageBus.unregister_agent`: drop the queue and strip the agent
from every subscription list.  Pending requests are left untouched. -/
def unregister_agent (st : BusState) (agent_id : Str) : BusState :=
  { st with
    queues := dictDel st.queues agent_id,
    event_subscriptions := st.event_subscriptions.map
      (fun e => (e.1, e.2.filter (fun sub => sub.1 != agent_id))) }

/-- `MessageBus.subscribe` (defaultdict append). -/
def subscribe (st : BusState) (agent_id event_type : Str) (handler : EventHandler) :
    BusState :=
  let subs := (dictGet st.event_subscriptions event_type).getD []
  { st with event_subscriptions :=
      dictSet st.event_subscriptions event_type (subs ++ [(agent_id, handler)]) }

/-- `MessageBus.send`: build the message and append it to the recipient's
queue; an unregistered recipient is a logged no-op. -/
def send (st : BusState) (newId sender_id recipient_id : Str) (payload : Payload)
    (message_type : MessageType) : BusState × Message :=
  let message : Message :=
    { id := newId, type := message_type, sender_id := sender_id,
      recipient_id := some recipient_id, payload := payload }
  match dictGet st.queues recipient_id with
  | none => (st, message)
  | some q => ({ st with queues := dictSet st.queues recipient_id (q ++ [message]) }, message)

/-- The first half of `MessageBus.request`: send the `REQUEST` message
and create the pending entry (an unresolved future) keyed by its id. -/
def request_start (st : BusState) (newId sender_id recipient_id : Str)
    (payload : Payload) : BusState × Message :=
  let sent := send st newId sender_id recipient_id payload .request
  ({ sent.1 with
      pending_requests := dictSet sent.1.pending_requests sent.2.id none }, sent.2)

/-- The second half of `MessageBus.request`, entered when the awaited
future either resolved (`some response` stored) or the timeout elapsed
with the future still unresolved (`none` stored): return the response or
`None`, and in the `finally` block delete the pending entry. -/
def request_finish (st : BusState) (message_id : Str) : BusState × Option Message :=
  let result : Option Message :=
    match dictGet st.pending_requests message_id with
    | some (some response) => some response
    | _ => none
  ({ st with pending_requests := dictDel st.pending_requests message_id }, result)

/-- `MessageBus.respond`: build the `RESPONSE` message; if a pending
request for the original id is outstanding resolve its future directly
(bypassing every queue), if its future is already done do nothing,
otherwise deliver it as a normal mailbox message to the original sender.
(A `REQUEST` message always carries a recipient; `getD []` stands for
the impossible `None` sender.) -/
def respond (st : BusState) (newId : Str) (original_message : Message)
    (payload : Payload) : BusState × Message :=
  let response : Message :=
    { id := newId, type := .response,
      sender_id := original_message.recipient_id.getD [],
      recipient_id := some original_message.sender_id,
      payload := payload, reply_to := some original_message.id }
  match dictGet st.pending_requests original_message.id with
  | some none =>
    ({ st with pending_requests :=
        dictSet st.pending_requests original_message.id (some response) }, response)
  | some (some _) => (st, response)
  | none =>
    match dictGet st.queues original_message.sender_id with
    | some q =>
      ({ st with queues :=
          dictSet st.queues original_message.sender_id (q ++ [response]) }, response)
    | none => (st, response)

/-- `MessageBus.broadcast`: build the event, call every handler
subscribed to the exact type, then every wildcard handler; each call's
`Except` outcome is the caught-and-logged result of that handler, and
the loop continues regardless.  Returns the event and the invocation
log. -/
def broadcast (st : BusState) (sender_id event_type : Str) (data : Payload) :
    Event × List (Str × Except Str Unit) :=
  let event : Event := { type := event_type, agent_id := some sender_id, data := data }
  let handlers := (dictGet st.event_subscriptions event_type).getD []
  let results := handlers.map (fun sub => (sub.1, sub.2 event))
  let wildcard_handlers := (dictGet st.event_subscriptions "*".toList).getD []
  let wildcard_results := wildcard_handlers.map (fun sub => (sub.1, sub.2 event))
  (event, results ++ wildcard_results)

/-! ## Tool registry (`tools/registry.py`)

A tool implementation is an `async` Python callable; its observable
behaviour for one call is its outcome: a returned output string, a raised
`TimeoutError`, or any other raised exception (`ExecOutcome`).  The
registry keeps the source's two dicts (`_tools`, `_implementations`). -/

inductive ToolResultStatus
  | success | error | denied | timeout
deriving DecidableEq, Repr

/-- `ToolResult`; `execution_time_ms` is a wall-clock measurement and is
omitted. -/
structure ToolResult where
  tool_name : Str
  status : ToolResultStatus
  output : Option Str := none
  error : Option Str := none
deriving DecidableEq, Repr

/-- `ToolSchema` restricted to the fields `execute` reads; `description`
and `parameters` only feed the inference-service tool format. -/
structure ToolSchema where
  name : Str
  required_capabilities : List Str := []
deriving DecidableEq, Repr

/-- Outcome of awaiting a tool implementation. -/
inductive ExecOutcome
  | ok (output : Str)
  | timeoutError
  | raised (msg : Str)
deriving DecidableEq, Repr

abbrev ToolImpl := Payload → ExecOutcome

structure ToolRegistry where
  tools : List (Str × ToolSchema) := []
  implementations : List (Str × ToolImpl) := []

/-- `ToolRegistry.register`. -/
def register (reg : ToolRegistry) (schema : ToolSchema) (impl : ToolImpl) :
    ToolRegistry :=
  { tools := dictSet reg.tools schema.name schema,
    implementations := dictSet reg.implementations schema.name impl }

/-- The per-capability-string split done inside `execute`'s loop:
`resource = parts[0]`, `path = parts[1] if len(parts) > 1 else "*"`,
`action = parts[2] if len(parts) > 2 else "*"`. -/
def parseCapTriple (cap_string : Str) : Str × Str × Str :=
  let parts := pySplit ':' cap_string
  (parts.getD 0 [],
   if parts.length > 1 then parts.getD 1 [] else "*".toList,
   if parts.length > 2 then parts.getD 2 [] else "*".toList)

/-- The capability check `execute` performs for one required capability
string. -/
def checkStr (capTable : CapTable) (agent_id cap_string : Str) : CapabilityCheck :=
  let triple := parseCapTriple cap_string
  check capTable agent_id triple.1 triple.2.1 triple.2.2

/-- The capability loop of `execute`: return the first failing check. -/
def firstFailingCheck (capTable : CapTable) (agent_id : Str) :
    List Str → Option CapabilityCheck
  | [] => none
  | cap_string :: rest =>
    let chk := checkStr capTable agent_id cap_string
    if chk.allowed then firstFailingCheck capTable agent_id rest else some chk

/-- `ToolRegistry.execute`.  A missing implementation for a registered
schema would raise `KeyError` inside the `try` and be caught by the
generic handler; Python's `str(KeyError(k))` is the quoted key. -/
def execute (reg : ToolRegistry) (capTable : CapTable) (agent_id tool_name : Str)
    (parameters : Payload) : ToolResult :=
  match dictGet reg.tools tool_name with
  | none =>
    { tool_name := tool_name, status := .error,
      error := some ("Unknown tool: ".toList ++ tool_name) }
  | some schema =>
    match firstFailingCheck capTable agent_id schema.required_capabilities with
    | some chk =>
      { tool_name := tool_name, status := .denied,
        error := some ("Permission denied: ".toList ++ chk.reason) }
    | none =>
      match dictGet reg.implementations tool_name with
      | none =>
        { tool_name := tool_name, status := .error,
          error := some ('\'' :: tool_name ++ "'".toList) }
      | some impl =>
        match impl parameters with
        | .ok output =>
          { tool_name := tool_name, status := .success, output := some output }
        | .timeoutError =>
          { tool_name := tool_name, status := .timeout,
            error := some "Tool execution timed out".toList }
        | .raised msg =>
          { tool_name := tool_name, status := .error, error := some msg }

/-! ## Agent runtime (`runtime/engine.py`)

The runtime owns the agent table, the capability manager and the message
bus.  `_run_agent_loop` alternates inference-service calls and tool
dispatch; its observable effect on the state machine is whether it
returned or raised, and — because a concurrently scheduled `pause` or
`terminate` may reassign `agent.state` while `run` awaits the loop — the
agent's state at loop exit.  Both are passed as the `LoopOutcome`
argument.  `Agent` is restricted to the fields the state machine reads
and writes; timestamps, iteration counts and conversation history do not
influence any transition. -/

inductive AgentState
  | pending | running | paused | completed | failed | terminated
deriving DecidableEq, Repr

structure RtAgent where
  state : AgentState
  last_error : Option Str := none
deriving DecidableEq, Repr

structure RuntimeState where
  agents : List (Str × RtAgent) := []
  capabilities : CapTable := []
  bus : BusState := {}

inductive LoopOutcome
  | ok (exit_state : AgentState)
  | raised (msg : Str)
deriving DecidableEq, Repr

/-- `AgentRuntime.run`: reject a missing or non-PENDING agent with
`ValueError`, set the state to RUNNING, drive the loop, and on exit set
COMPLETED (still RUNNING, no unhandled failure) or FAILED (the loop
raised, `last_error` recorded). -/
def run (rt : RuntimeState) (agent_id : Str) (loop : LoopOutcome) :
    Except Str RuntimeState :=
  match dictGet rt.agents agent_id with
  | none => .error ("Agent not found: ".toList ++ agent_id)
  | some agent =>
    if agent.state != .pending then
      .error ("Agent ".toList ++ agent_id ++ " is not in PENDING state".toList)
    else
      -- state := RUNNING, then the loop runs and exits in `loop`
      match loop with
      | .ok exit_state =>
        let final_state := if exit_state == .running then .completed else exit_state
        .ok { rt with agents := dictSet rt.agents agent_id { agent with state := final_state } }
      | .raised msg =>
        let failed_agent := { agent with state := AgentState.failed, last_error := some msg }
        .ok { rt with agents := dictSet rt.agents agent_id failed_agent }

/-- `AgentRuntime.pause`: RUNNING → PAUSED, otherwise a no-op. -/
def pause (rt : RuntimeState) (agent_id : Str) : Except Str RuntimeState :=
  match dictGet rt.agents agent_id with
  | none => .error ("Agent not found: ".toList ++ agent_id)
  | some agent =>
    if agent.state == .running then
      .ok { rt with agents := dictSet rt.agents agent_id { agent with state := .paused } }
    else .ok rt

/-- `AgentRuntime.resume`: PAUSED → RUNNING, otherwise a no-op. -/
def resume (rt : RuntimeState) (agent_id : Str) : Except Str RuntimeState :=
  match dictGet rt.agents agent_id with
  | none => .error ("Agent not found: ".toList ++ agent_id)
  | some agent =>
    if agent.state == .paused then
      .ok { rt with agents := dictSet rt.agents agent_id { agent with state := .running } }
    else .ok rt

/-- `AgentRuntime.terminate`: from RUNNING/PAUSED/PENDING move to
TERMINATED, cancel the task (an external effect), revoke all
capabilities, clear memory (external) and unregister the mailbox;
from any other state a no-op that still returns the agent. -/
def terminate (rt : RuntimeState) (agent_id : Str) : Except Str RuntimeState :=
  match dictGet rt.agents agent_id with
  | none => .error ("Agent not found: ".toList ++ agent_id)
  | some agent =>
    if agent.state == .running || agent.state == .paused || agent.state == .pending then
      .ok { agents := dictSet rt.agents agent_id { agent with state := .terminated },
            capabilities := revoke_all rt.capabilities agent_id,
            bus := unregister_agent rt.bus agent_id }
    else .ok rt

/-! ## Concrete fixtures for the evaluation theorems -/

/-- A tool schema requiring `file:/tmp/*:read`. -/
def fileReadSchema : ToolSchema :=
  { name := "file.read".toList,
    required_capabilities := ["file:/tmp/*:read".toList] }

/-- An implementation that returns normally. -/
def fileReadImpl : ToolImpl := fun _ => .ok "data".toList

/-- A registry holding exactly that tool. -/
def fixtureRegistry : ToolRegistry := register {} fileReadSchema fileReadImpl

/-- A capability table granting agent `a` the capability `file:*:read`. -/
def fixtureCaps : CapTable :=
  [("a".toList, [⟨"file".toList, "*".toList, ["read".toList]⟩])]

/-! ## Lemma kit -/

/-! ## Dictionary lemmas -/

theorem dictGet_dictSet_self {α : Type _} (t : List (Str × α)) (k : Str) (v : α) :
    dictGet (dictSet t k v) k = some v := by
  induction t with
  | nil => simp [dictGet, dictSet]
  | cons e rest ih =>
    by_cases h : e.1 = k
    · simp [dictGet, dictSet, h]
    · simp only [dictSet, beq_iff_eq, h, if_false]
      simp only [dictGet, beq_iff_eq, h, if_false]
      exact ih

theorem dictGet_dictSet_ne {α : Type _} (t : List (Str × α)) (k k' : Str) (v : α)
    (h : k ≠ k') : dictGet (dictSet t k v) k' = dictGet t k' := by
  induction t with
  | nil => simp [dictGet, dictSet, h]
  | cons e rest ih =>
    by_cases he : e.1 = k
    · simp [dictGet, dictSet, he, h]
    · simp only [dictSet, beq_iff_eq, he, if_false]
      by_cases he' : e.1 = k'
      · simp [dictGet, he']
      · simp only [dictGet, beq_iff_eq, he', if_false]
        exact ih

theorem dictGet_dictDel_self {α : Type _} (t : List (Str × α)) (k : Str) :
    dictGet (dictDel t k) k = none := by
  induction t with
  | nil => rfl
  | cons e rest ih =>
    by_cases h : e.1 = k
    · simpa [dictDel, h] using ih
    · simpa [dictDel, h, dictGet] using ih

/-! ## `pySplit` lemmas -/

theorem pySplit_ne_nil (sep : Char) (s : Str) : pySplit sep s ≠ [] := by
  cases s with
  | nil => simp [pySplit]
  | cons c rest =>
    simp only [pySplit]
    cases pySplit sep rest with
    | nil => simp
    | cons h t =>
      by_cases hc : c = sep <;> simp [hc]

theorem pySplit_no_sep (sep : Char) (s : Str) (h : sep ∉ s) :
    pySplit sep s = [s] := by
  induction s with
  | nil => rfl
  | cons c rest ih =>
    have hc : c ≠ sep := fun he => h (he ▸ List.mem_cons_self c rest)
    have hrest : sep ∉ rest := fun hm => h (List.mem_cons_of_mem c hm)
    simp only [pySplit, ih hrest]
    simp [hc]

theorem pySplit_append_sep (sep : Char) (a b : Str) (h : sep ∉ a) :
    pySplit sep (a ++ sep :: b) = a :: pySplit sep b := by
  induction a with
  | nil =>
    simp only [List.nil_append, pySplit]
    cases hb : pySplit sep b with
    | nil => exact absurd hb (pySplit_ne_nil sep b)
    | cons h t => simp
  | cons c rest ih =>
    have hc : c ≠ sep := fun he => h (he ▸ List.mem_cons_self c rest)
    have hrest : sep ∉ rest := fun hm => h (List.mem_cons_of_mem c hm)
    simp only [List.cons_append, pySplit, List.append_eq]
    rw [ih hrest]
    simp [hc]

theorem pySplit_length_gt_one_iff (sep : Char) (s : Str) :
    1 < (pySplit sep s).length ↔ sep ∈ s := by
  induction s with
  | nil => simp [pySplit]
  | cons c rest ih =>
    simp only [pySplit]
    cases hr : pySplit sep rest with
    | nil => exact absurd hr (pySplit_ne_nil sep rest)
    | cons h t =>
      by_cases hc : c = sep
      · subst hc
        simp
      · simp only [beq_iff_eq, hc, if_false, List.length_cons, List.mem_cons]
        rw [hr] at ih
        simp only [List.length_cons] at ih
        constructor
        · intro hlen
          exact Or.inr (ih.mp hlen)
        · intro hm
          rcases hm with hm | hm
          · exact absurd hm.symm hc
          · exact ih.mpr hm

/-! ## Prefix/suffix lemmas -/

theorem startsWith_iff_ex (s p : Str) : startsWith s p = true ↔ ∃ t, p ++ t = s := by
  rw [startsWith, List.isPrefixOf_iff_prefix]
  exact Iff.rfl

theorem startsWith_dropLast_self (s : Str) : startsWith s s.dropLast = true := by
  rw [startsWith, List.isPrefixOf_iff_prefix]
  exact List.dropLast_prefix s

/-- The inner path test of `Capability.matches` agrees with the spec's
"requested path equals the stored path, or the stored path ends with
`"*"` and the requested path has the trimmed prefix". -/
theorem path_branch_iff (cpath p : Str) :
    (if endsWith cpath "*".toList then startsWith p cpath.dropLast
     else cpath == p) = true ↔
      p = cpath ∨
        (endsWith cpath "*".toList = true ∧ startsWith p cpath.dropLast = true) := by
  by_cases he : endsWith cpath "*".toList = true
  · rw [if_pos he]
    constructor
    · exact fun h => Or.inr ⟨he, h⟩
    · rintro (h | h)
      · rw [h]
        exact startsWith_dropLast_self cpath
      · exact h.2
  · rw [if_neg he]
    simp only [beq_iff_eq]
    constructor
    · exact fun h => Or.inl h.symm
    · rintro (h | h)
      · exact h.symm
      · exact absurd h.1 he

theorem matches_iff_specMatches (c : Capability) (resource path action : Str) :
    c.matches resource path action = true ↔ specMatches c resource path action := by
  unfold Capability.matches specMatches
  constructor
  · intro h
    by_cases hA : (c.resource != "*".toList && c.resource != resource) = true
    · rw [if_pos hA] at h
      exact absurd h (by simp)
    · rw [if_neg hA] at h
      by_cases hB : (c.path != "*".toList &&
          !(if endsWith c.path "*".toList then startsWith path c.path.dropLast
            else c.path == path)) = true
      · rw [if_pos hB] at h
        exact absurd h (by simp)
      · rw [if_neg hB] at h
        by_cases hC : (!(c.actions.contains "*".toList) &&
            !(c.actions.contains action)) = true
        · rw [if_pos hC] at h
          exact absurd h (by simp)
        · simp only [Bool.and_eq_true, bne_iff_ne, ne_eq, not_and_or, not_not] at hA
          simp only [Bool.and_eq_true, bne_iff_ne, ne_eq, not_and_or, not_not,
            Bool.not_eq_true, Bool.not_eq_false'] at hB
          simp only [Bool.and_eq_true, not_and_or, Bool.not_eq_true,
            Bool.not_eq_false, List.contains, List.elem_iff] at hC
          refine ⟨hA, ?_, ?_⟩
          · rcases hB with hB | hB
            · exact Or.inl hB
            · rcases (path_branch_iff c.path path).mp hB with h2 | h2
              · exact Or.inr (Or.inl h2)
              · exact Or.inr (Or.inr h2)
          · rcases hC with hC | hC
            · exact Or.inl (by simpa [List.contains, List.elem_iff] using hC)
            · exact Or.inr (by simpa [List.contains, List.elem_iff] using hC)
  · rintro ⟨hA, hB, hC⟩
    have hA' : (c.resource != "*".toList && c.resource != resource) = false := by
      rcases hA with h | h <;> simp [h]
    have hB' : (c.path != "*".toList &&
        !(if endsWith c.path "*".toList then startsWith path c.path.dropLast
          else c.path == path)) = false := by
      rcases hB with h | h
      · simp [h]
      · have hif := (path_branch_iff c.path path).mpr h
        rw [hif]
        simp
    have hC' : (!(c.actions.contains "*".toList) && !(c.actions.contains action))
        = false := by
      cases hx : c.actions.contains "*".toList with
      | true => simp [hx]
      | false =>
        cases hy : c.actions.contains action with
        | true => simp [hx, hy]
        | false =>
          exfalso
          simp only [List.contains, List.elem_iff] at hx hy
          rcases hC with h | h
          · exact absurd h (by simpa using hx)
          · exact absurd h (by simpa using hy)
    rw [hA', hB', hC']
    simp

theorem checkList_allowed_iff (caps : List Capability) (resource path action : Str) :
    (checkList caps resource path action).allowed = true ↔
      ∃ c ∈ caps, specMatches c resource path action := by
  induction caps with
  | nil => simp [checkList]
  | cons cap rest ih =>
    by_cases h : cap.matches resource path action = true
    · simp only [checkList, h, if_true]
      constructor
      · intro _
        exact ⟨cap, List.mem_cons_self cap rest, (matches_iff_specMatches _ _ _ _).mp h⟩
      · intro _
        trivial
    · simp only [checkList, h, Bool.false_eq_true, if_false]
      rw [ih]
      constructor
      · rintro ⟨c, hc, hm⟩
        exact ⟨c, List.mem_cons_of_mem cap hc, hm⟩
      · rintro ⟨c, hc, hm⟩
        rcases List.mem_cons.mp hc with rfl | hc
        · exact absurd ((matches_iff_specMatches _ _ _ _).mpr hm) h
        · exact ⟨c, hc, hm⟩

theorem checkList_first_match (caps : List Capability) (resource path action : Str) :
    ∀ c, (checkList caps resource path action).capability = some c →
      ∃ pre post, caps = pre ++ c :: post ∧
        specMatches c resource path action ∧
        ∀ c' ∈ pre, ¬specMatches c' resource path action := by
  induction caps with
  | nil => intro c h; simp [checkList] at h
  | cons cap rest ih =>
    intro c h
    by_cases hm : cap.matches resource path action = true
    · simp only [checkList, hm, if_true] at h
      have hc : cap = c := by simpa using h
      subst hc
      exact ⟨[], rest, rfl, (matches_iff_specMatches _ _ _ _).mp hm, by simp⟩
    · simp only [checkList, hm, Bool.false_eq_true, if_false] at h
      obtain ⟨pre, post, heq, hspec, hpre⟩ := ih c h
      refine ⟨cap :: pre, post, by rw [heq]; rfl, hspec, ?_⟩
      intro c' hc'
      rcases List.mem_cons.mp hc' with rfl | hc'
      · exact fun hs => hm ((matches_iff_specMatches _ _ _ _).mpr hs)
      · exact hpre c' hc'

theorem checkList_no_match (caps : List Capability) (resource path action : Str)
    (h : ∀ c ∈ caps, ¬specMatches c resource path action) :
    (checkList caps resource path action).allowed = false ∧
    (checkList caps resource path action).capability = none := by
  induction caps with
  | nil => simp [checkList]
  | cons cap rest ih =>
    have hm : cap.matches resource path action ≠ true :=
      fun hm => h cap (List.mem_cons_self cap rest)
        ((matches_iff_specMatches _ _ _ _).mp hm)
    simp only [checkList, hm, Bool.false_eq_true, if_false]
    exact ih (fun c hc => h c (List.mem_cons_of_mem cap hc))

/-! ## Parse and revocation lemmas -/

theorem parse_isOk_iff (s : Str) :
    (Capability.parse s).toOption.isSome = true ↔ ':' ∈ s := by
  unfold Capability.parse
  by_cases h : (pySplit ':' s).length < 2
  · simp only [h, if_true, Except.toOption]
    simp only [Option.isSome_none, Bool.false_eq_true, false_iff]
    intro hm
    have := (pySplit_length_gt_one_iff ':' s).mpr hm
    omega
  · simp only [h, if_false, Except.toOption, Option.isSome_some, true_iff]
    exact (pySplit_length_gt_one_iff ':' s).mp (by omega)

theorem parse_two_segments (res path : Str) (h1 : ':' ∉ res) (h2 : ':' ∉ path) :
    Capability.parse (res ++ ':' :: path) =
      .ok { resource := res, path := path, actions := ["*".toList] } := by
  unfold Capability.parse
  have hsplit : pySplit ':' (res ++ ':' :: path) = [res, path] := by
    rw [pySplit_append_sep ':' res path h1, pySplit_no_sep ':' path h2]
  rw [hsplit]
  simp

theorem parse_three_segments (res path acts : Str)
    (h1 : ':' ∉ res) (h2 : ':' ∉ path) (h3 : ':' ∉ acts) :
    Capability.parse (res ++ ':' :: (path ++ ':' :: acts)) =
      .ok { resource := res, path := path, actions := pySplit ',' acts } := by
  unfold Capability.parse
  have hsplit : pySplit ':' (res ++ ':' :: (path ++ ':' :: acts)) = [res, path, acts] := by
    rw [pySplit_append_sep ':' res (path ++ ':' :: acts) h1,
      pySplit_append_sep ':' path acts h2, pySplit_no_sep ':' acts h3]
  rw [hsplit]
  simp

theorem lookupCaps_revoke_all (t : CapTable) (agent_id : Str) :
    lookupCaps (revoke_all t agent_id) agent_id = [] := by
  unfold lookupCaps revoke_all
  rw [dictGet_dictDel_self]
  rfl

/-! ## Claims about the capability store -/

/-- C1: for every agent, list of granted capabilities and requested
(resource, path, action) triple, `CapabilityManager.check` returns
`allowed=true` iff some granted capability matches the triple by the
spec's matching rules (`specMatches`); the matched capability is the
first matching one in grant order; and a check with no matching grant
returns `allowed=false`. -/
theorem C1_check_matches_spec (t : CapTable) (agent_id resource path action : Str) :
    ((check t agent_id resource path action).allowed = true ↔
      ∃ c ∈ lookupCaps t agent_id, specMatches c resource path action) ∧
    (∀ c, (check t agent_id resource path action).capability = some c →
      ∃ pre post, lookupCaps t agent_id = pre ++ c :: post ∧
        specMatches c resource path action ∧
        ∀ c' ∈ pre, ¬specMatches c' resource path action) ∧
    ((∀ c ∈ lookupCaps t agent_id, ¬specMatches c resource path action) →
      (check t agent_id resource path action).allowed = false) := by
  refine ⟨checkList_allowed_iff _ _ _ _, checkList_first_match _ _ _ _, fun h => ?_⟩
  exact (checkList_no_match _ _ _ _ h).1

/-- Witness for C1 at a concrete table: the grant `file:/tmp/*:read`
allows `(file, /tmp/x, read)` and denies `(shell, /bin/sh, execute)`. -/
theorem C1_check_matches_spec_witness :
    (check [("a".toList, [⟨"file".toList, "/tmp/*".toList, ["read".toList]⟩])]
      "a".toList "file".toList "/tmp/x".toList "read".toList).allowed = true ∧
    (check [("a".toList, [⟨"file".toList, "/tmp/*".toList, ["read".toList]⟩])]
      "a".toList "shell".toList "/bin/sh".toList "execute".toList).allowed = false := by
  constructor
  · exact (C1_check_matches_spec [("a".toList,
      [⟨"file".toList, "/tmp/*".toList, ["read".toList]⟩])]
      "a".toList "file".toList "/tmp/x".toList "read".toList).1.mpr (by decide)
  · exact (C1_check_matches_spec [("a".toList,
      [⟨"file".toList, "/tmp/*".toList, ["read".toList]⟩])]
      "a".toList "shell".toList "/bin/sh".toList "execute".toList).2.2 (by decide)

/-- C2 counterexample: the claim says every string of the grammar
`resource[:path[:actions]]` is accepted (so the bare resource `"file"`
parses, with `path` defaulting to `"*"`), and that every successfully
parsed capability has a non-empty resource and path.  The code rejects
`"file"` (`len(parts) < 2`) and parses `"::read"` with an empty resource
and an empty path. -/
theorem C2_parse_counterexample :
    (Capability.parse "file".toList).toOption = none ∧
    (Capability.parse "::read".toList).toOption =
      some { resource := [], path := [], actions := ["read".toList] } := by
  exact ⟨rfl, rfl⟩

/-- C2 amended: `Capability.parse` accepts exactly the strings with at
least two colon-delimited segments (equivalently: containing a colon);
`resource` and `path` are the first two segments verbatim (possibly
empty — non-emptiness is not enforced), and `actions` is the comma-split
third segment, defaulting to `{"*"}` when absent; a string with fewer
than two segments — including a bare resource — is rejected as a format
error. -/
theorem C2_parse_grammar :
    (∀ s : Str, (Capability.parse s).toOption.isSome = true ↔ ':' ∈ s) ∧
    (∀ res path : Str, ':' ∉ res → ':' ∉ path →
      Capability.parse (res ++ ':' :: path) =
        .ok { resource := res, path := path, actions := ["*".toList] }) ∧
    (∀ res path acts : Str, ':' ∉ res → ':' ∉ path → ':' ∉ acts →
      Capability.parse (res ++ ':' :: (path ++ ':' :: acts)) =
        .ok { resource := res, path := path, actions := pySplit ',' acts }) :=
  ⟨parse_isOk_iff, parse_two_segments, parse_three_segments⟩

/-- Witness for C2 at concrete strings: `file:/tmp` and
`file:/tmp:read,write`. -/
theorem C2_parse_grammar_witness :
    Capability.parse ("file".toList ++ ':' :: "/tmp".toList) =
      .ok { resource := "file".toList, path := "/tmp".toList,
            actions := ["*".toList] } ∧
    Capability.parse ("file".toList ++ ':' :: ("/tmp".toList ++ ':' :: "read,write".toList)) =
      .ok { resource := "file".toList, path := "/tmp".toList,
            actions := pySplit ',' "read,write".toList } :=
  ⟨C2_parse_grammar.2.1 "file".toList "/tmp".toList (by decide) (by decide),
   C2_parse_grammar.2.2 "file".toList "/tmp".toList "read,write".toList
     (by decide) (by decide) (by decide)⟩

/-- C9: after `revoke_all(agent_id)`, and absent new grants, every
subsequent check for that agent returns `allowed=false` (and no matched
capability), for all requested triples. -/
theorem C9_revoke_all_denies (t : CapTable) (agent_id resource path action : Str) :
    (check (revoke_all t agent_id) agent_id resource path action).allowed = false ∧
    (check (revoke_all t agent_id) agent_id resource path action).capability = none := by
  unfold check
  rw [lookupCaps_revoke_all]
  exact ⟨rfl, rfl⟩

/-! ## Claims about the sandbox -/

/-- C5: `execute_command` returns `success=true` iff the child process's
exit code is zero and the violations list is empty; on a wall-clock
timeout the (killed) process contributes a wall-time violation, the
violations list is non-empty, the result is unsuccessful and no partial
output is kept. -/
theorem C5_execute_command_success (command : Str) (config : SandboxConfig)
    (proc : ProcOutcome) :
    ((execute_command command config proc).success = true ↔
      (execute_command command config proc).exit_code = 0 ∧
      (execute_command command config proc).violations = []) ∧
    (proc = .timedOut →
      (execute_command command config proc).violations =
        [wallTimeViolation config.resources.max_wall_seconds] ∧
      (execute_command command config proc).violations ≠ [] ∧
      (execute_command command config proc).success = false ∧
      (execute_command command config proc).output = []) := by
  cases proc with
  | completed code out err =>
    refine ⟨?_, by intro h; cases h⟩
    simp [execute_command]
  | timedOut =>
    refine ⟨?_, fun _ => ⟨rfl, by simp [execute_command], rfl, rfl⟩⟩
    simp [execute_command]
  | spawnFailed msg =>
    refine ⟨?_, by intro h; cases h⟩
    simp [execute_command]

/-- Witness for C5: a concrete timed-out run is unsuccessful with a
non-empty violation list, and a concrete clean exit succeeds. -/
theorem C5_execute_command_success_witness :
    (execute_command "sleep 10".toList { resources := { max_wall_seconds := 1 } }
      .timedOut).success = false ∧
    (execute_command "sleep 10".toList { resources := { max_wall_seconds := 1 } }
      .timedOut).violations ≠ [] ∧
    (execute_command "echo hello".toList {} (.completed 0 "hello".toList [])).success
      = true := by
  refine ⟨?_, ?_, ?_⟩
  · exact ((C5_execute_command_success "sleep 10".toList
      { resources := { max_wall_seconds := 1 } } .timedOut).2 rfl).2.2.1
  · exact ((C5_execute_command_success "sleep 10".toList
      { resources := { max_wall_seconds := 1 } } .timedOut).2 rfl).2.1
  · exact (C5_execute_command_success "echo hello".toList {}
      (.completed 0 "hello".toList [])).1.mpr (by exact ⟨rfl, rfl⟩)

/-! ## Path-policy lemmas -/

/-- A denied-list entry matching by raw prefix or equality forces denial,
whatever the allow lists contain. -/
theorem check_path_denied_of_mem (expand : Str → Str) (path : Str)
    (policy : FilesystemPolicy) (action d : Str) (hd : d ∈ policy.denied_paths)
    (hm : startsWith (expand path) (expand d) = true ∨ expand path = expand d) :
    (check_path_allowed expand path policy action).1 = false := by
  have pred_true :
      (startsWith (expand path) (expand d) || expand path == expand d) = true := by
    rcases hm with h | h <;> simp [h]
  rcases hfind : policy.denied_paths.find?
      (fun dd => startsWith (expand path) (expand dd) || expand path == expand dd)
    with _ | dd
  · exact absurd pred_true (List.find?_eq_none.mp hfind d hd)
  · simp [check_path_allowed, hfind]

/-- When no denied entry matches, the denied scan finds nothing. -/
theorem check_path_find_none (expand : Str → Str) (path : Str)
    (policy : FilesystemPolicy)
    (hnone : ∀ d ∈ policy.denied_paths,
      ¬(startsWith (expand path) (expand d) = true ∨ expand path = expand d)) :
    policy.denied_paths.find?
      (fun dd => startsWith (expand path) (expand dd) || expand path == expand dd)
      = none := by
  apply List.find?_eq_none.mpr
  intro d hd
  have h := hnone d hd
  simp only [Bool.or_eq_true, beq_iff_eq]
  exact h

/-- When no denied entry matches and the action's allow list is empty,
access is allowed. -/
theorem check_path_empty_allow (expand : Str → Str) (path : Str)
    (policy : FilesystemPolicy) (action : Str)
    (hnone : ∀ d ∈ policy.denied_paths,
      ¬(startsWith (expand path) (expand d) = true ∨ expand path = expand d))
    (hempty : (if action == "read".toList then policy.allowed_read_paths
               else policy.allowed_write_paths) = []) :
    check_path_allowed expand path policy action = (true, none) := by
  simp only [check_path_allowed, check_path_find_none expand path policy hnone]
  rw [hempty]
  simp

/-- When no denied entry matches and the action's allow list is
non-empty, access is allowed iff some allowed entry matches by raw
prefix or equality. -/
theorem check_path_nonempty_allow_iff (expand : Str → Str) (path : Str)
    (policy : FilesystemPolicy) (action : Str)
    (hnone : ∀ d ∈ policy.denied_paths,
      ¬(startsWith (expand path) (expand d) = true ∨ expand path = expand d))
    (hne : (if action == "read".toList then policy.allowed_read_paths
            else policy.allowed_write_paths) ≠ []) :
    (check_path_allowed expand path policy action).1 = true ↔
      ∃ al ∈ (if action == "read".toList then policy.allowed_read_paths
              else policy.allowed_write_paths),
        startsWith (expand path) (expand al) = true ∨ expand path = expand al := by
  simp only [check_path_allowed, check_path_find_none expand path policy hnone]
  have hie : (if action == "read".toList then policy.allowed_read_paths
              else policy.allowed_write_paths).isEmpty = false := by
    cases h : (if action == "read".toList then policy.allowed_read_paths
               else policy.allowed_write_paths) with
    | nil => exact absurd h hne
    | cons a l => rfl
  rw [hie]
  simp only [Bool.false_eq_true, if_false]
  cases hany : (if action == "read".toList then policy.allowed_read_paths
      else policy.allowed_write_paths).any
      (fun al => startsWith (expand path) (expand al) || expand path == expand al) with
  | true =>
    simp only [if_true]
    obtain ⟨al, hal, hp⟩ := List.any_eq_true.mp hany
    simp only [true_iff]
    refine ⟨al, hal, ?_⟩
    rcases Bool.or_eq_true .. |>.mp hp with h | h
    · exact Or.inl h
    · exact Or.inr (by simpa using h)
  | false =>
    simp only [Bool.false_eq_true, if_false]
    constructor
    · intro h
      cases h
    · rintro ⟨al, hal, hp⟩
      exfalso
      have hall := List.any_eq_false.mp hany al hal
      have : (startsWith (expand path) (expand al) || expand path == expand al) = true := by
        rcases hp with h | h <;> simp [h]
      exact hall this

/-! ## Claims about the path policy -/

/-- C6: `check_path_allowed` evaluates, on expanded absolute paths:
denied entries first and they always win; then an empty allow list for
the action means allowed; otherwise allowed iff the path equals or is
prefixed by some allowed entry.  In particular `/etc/passwd` under the
default denied paths is always denied for read, and `/tmp/x` with
`allowed_read_paths=["/tmp"]` is allowed for read. -/
theorem C6_check_path_policy (expand : Str → Str) :
    (∀ path policy action, (∃ d ∈ FilesystemPolicy.denied_paths policy,
        startsWith (expand path) (expand d) = true ∨ expand path = expand d) →
      (check_path_allowed expand path policy action).1 = false) ∧
    (∀ path policy action, (∀ d ∈ FilesystemPolicy.denied_paths policy,
        ¬(startsWith (expand path) (expand d) = true ∨ expand path = expand d)) →
      (if action == "read".toList then policy.allowed_read_paths
       else policy.allowed_write_paths) = [] →
      check_path_allowed expand path policy action = (true, none)) ∧
    (∀ path policy action, (∀ d ∈ FilesystemPolicy.denied_paths policy,
        ¬(startsWith (expand path) (expand d) = true ∨ expand path = expand d)) →
      (if action == "read".toList then policy.allowed_read_paths
       else policy.allowed_write_paths) ≠ [] →
      ((check_path_allowed expand path policy action).1 = true ↔
        ∃ al ∈ (if action == "read".toList then policy.allowed_read_paths
                else policy.allowed_write_paths),
          startsWith (expand path) (expand al) = true ∨ expand path = expand al)) ∧
    (expand "/etc/passwd".toList = "/etc/passwd".toList →
      (check_path_allowed expand "/etc/passwd".toList {} "read".toList).1 = false) ∧
    (expand "/tmp/x".toList = "/tmp/x".toList → expand "/tmp".toList = "/tmp".toList →
      (∀ d ∈ FilesystemPolicy.denied_paths
          { allowed_read_paths := ["/tmp".toList] },
        ¬(startsWith "/tmp/x".toList (expand d) = true ∨ "/tmp/x".toList = expand d)) →
      (check_path_allowed expand "/tmp/x".toList
        { allowed_read_paths := ["/tmp".toList] } "read".toList).1 = true) := by
  refine ⟨?_, ?_, ?_, ?_, ?_⟩
  · rintro path policy action ⟨d, hd, hm⟩
    exact check_path_denied_of_mem expand path policy action d hd hm
  · intro path policy action hnone hempty
    exact check_path_empty_allow expand path policy action hnone hempty
  · intro path policy action hnone hne
    exact check_path_nonempty_allow_iff expand path policy action hnone hne
  · intro h
    refine check_path_denied_of_mem expand "/etc/passwd".toList {} "read".toList
      "/etc/passwd".toList ?_ (Or.inr (by rw [h]))
    exact List.mem_cons_self _ _
  · intro h1 h2 hnone
    have hnone' : ∀ d ∈ FilesystemPolicy.denied_paths
        { allowed_read_paths := ["/tmp".toList] },
        ¬(startsWith (expand "/tmp/x".toList) (expand d) = true ∨
          expand "/tmp/x".toList = expand d) := by
      intro d hd
      rw [h1]
      exact hnone d hd
    have hiff := check_path_nonempty_allow_iff expand "/tmp/x".toList
      { allowed_read_paths := ["/tmp".toList] } "read".toList hnone' (by simp)
    apply hiff.mpr
    refine ⟨"/tmp".toList, by simp, Or.inl ?_⟩
    rw [h1, h2]
    decide

/-- Witness for C6 under the concrete expansion `expandHome "/root"`. -/
theorem C6_check_path_policy_witness :
    (check_path_allowed (expandHome "/root".toList) "/etc/passwd".toList {}
      "read".toList).1 = false ∧
    (check_path_allowed (expandHome "/root".toList) "/tmp/x".toList
      { allowed_read_paths := ["/tmp".toList] } "read".toList).1 = true := by
  constructor
  · exact (C6_check_path_policy (expandHome "/root".toList)).2.2.2.1 (by decide)
  · exact (C6_check_path_policy (expandHome "/root".toList)).2.2.2.2
      (by decide) (by decide) (by decide)

/-- C10: the prefix matching of `check_path_allowed` is raw string-prefix
matching with no path-component boundary: any denied entry whose
expanded form is a character prefix of the expanded candidate denies it,
any allowed entry whose expanded form is a character prefix allows it
(absent a denied match); so `/etc/passwd2` is denied by the default
`/etc/passwd` entry and `/tmpevil` is allowed by
`allowed_read_paths=["/tmp"]`. -/
theorem C10_path_prefix_no_boundary (expand : Str → Str) :
    (∀ path policy action d, d ∈ FilesystemPolicy.denied_paths policy →
      startsWith (expand path) (expand d) = true →
      (check_path_allowed expand path policy action).1 = false) ∧
    (∀ path policy action al, (∀ d ∈ FilesystemPolicy.denied_paths policy,
        ¬(startsWith (expand path) (expand d) = true ∨ expand path = expand d)) →
      al ∈ (if action == "read".toList then policy.allowed_read_paths
            else policy.allowed_write_paths) →
      startsWith (expand path) (expand al) = true →
      (check_path_allowed expand path policy action).1 = true) ∧
    (expand "/etc/passwd2".toList = "/etc/passwd2".toList →
      expand "/etc/passwd".toList = "/etc/passwd".toList →
      (check_path_allowed expand "/etc/passwd2".toList {} "read".toList).1 = false) ∧
    (expand "/tmpevil".toList = "/tmpevil".toList →
      expand "/tmp".toList = "/tmp".toList →
      (∀ d ∈ FilesystemPolicy.denied_paths
          { allowed_read_paths := ["/tmp".toList] },
        ¬(startsWith "/tmpevil".toList (expand d) = true ∨ "/tmpevil".toList = expand d)) →
      (check_path_allowed expand "/tmpevil".toList
        { allowed_read_paths := ["/tmp".toList] } "read".toList).1 = true) := by
  refine ⟨?_, ?_, ?_, ?_⟩
  · intro path policy action d hd hm
    exact check_path_denied_of_mem expand path policy action d hd (Or.inl hm)
  · intro path policy action al hnone hal hm
    have hne : (if action == "read".toList then policy.allowed_read_paths
        else policy.allowed_write_paths) ≠ [] := by
      intro hc
      rw [hc] at hal
      cases hal
    exact (check_path_nonempty_allow_iff expand path policy action hnone hne).mpr
      ⟨al, hal, Or.inl hm⟩
  · intro h1 h2
    refine check_path_denied_of_mem expand "/etc/passwd2".toList {} "read".toList
      "/etc/passwd".toList (List.mem_cons_self _ _) (Or.inl ?_)
    rw [h1, h2]
    decide
  · intro h1 h2 hnone
    have hnone' : ∀ d ∈ FilesystemPolicy.denied_paths
        { allowed_read_paths := ["/tmp".toList] },
        ¬(startsWith (expand "/tmpevil".toList) (expand d) = true ∨
          expand "/tmpevil".toList = expand d) := by
      intro d hd
      rw [h1]
      exact hnone d hd
    have hne : (if "read".toList == "read".toList then
        FilesystemPolicy.allowed_read_paths { allowed_read_paths := ["/tmp".toList] }
        else FilesystemPolicy.allowed_write_paths
          { allowed_read_paths := ["/tmp".toList] }) ≠ [] := by simp
    apply (check_path_nonempty_allow_iff expand "/tmpevil".toList
      { allowed_read_paths := ["/tmp".toList] } "read".toList hnone' hne).mpr
    refine ⟨"/tmp".toList, by simp, Or.inl ?_⟩
    rw [h1, h2]
    decide

/-- Witness for C10 under the concrete expansion `expandHome "/root"`. -/
theorem C10_path_prefix_no_boundary_witness :
    (check_path_allowed (expandHome "/root".toList) "/etc/passwd2".toList {}
      "read".toList).1 = false ∧
    (check_path_allowed (expandHome "/root".toList) "/tmpevil".toList
      { allowed_read_paths := ["/tmp".toList] } "read".toList).1 = true := by
  constructor
  · exact (C10_path_prefix_no_boundary (expandHome "/root".toList)).2.2.1
      (by decide) (by decide)
  · exact (C10_path_prefix_no_boundary (expandHome "/root".toList)).2.2.2
      (by decide) (by decide) (by decide)

/-! ## Claims about the message bus -/

/-- C7: `request` sends a `REQUEST` message and records a pending
request keyed by the message id (appending the message to a registered
recipient's mailbox); while that entry is outstanding, `respond` on the
original message resolves it directly — no mailbox changes — and the
waiting `request` returns exactly the response, removing the pending
entry; if the timeout elapses with the future unresolved, `request`
returns `none` and the pending entry is removed; `respond` on a message
whose id has no outstanding pending request instead appends the response
to the original sender's mailbox. -/
theorem C7_request_respond (st : BusState) (newId sender_id recipient_id : Str)
    (payload : Payload) :
    ((request_start st newId sender_id recipient_id payload).2.type = .request ∧
     (request_start st newId sender_id recipient_id payload).2.id = newId ∧
     (request_start st newId sender_id recipient_id payload).2.sender_id = sender_id ∧
     dictGet (request_start st newId sender_id recipient_id payload).1.pending_requests
       newId = some none ∧
     (∀ q, dictGet st.queues recipient_id = some q →
       dictGet (request_start st newId sender_id recipient_id payload).1.queues
         recipient_id =
         some (q ++ [(request_start st newId sender_id recipient_id payload).2]))) ∧
    (∀ (st₂ : BusState) (respId : Str) (orig : Message) (pl : Payload),
      dictGet st₂.pending_requests orig.id = some none →
      (respond st₂ respId orig pl).1.queues = st₂.queues ∧
      (request_finish (respond st₂ respId orig pl).1 orig.id).2 =
        some (respond st₂ respId orig pl).2 ∧
      dictGet (request_finish (respond st₂ respId orig pl).1 orig.id).1.pending_requests
        orig.id = none) ∧
    (∀ (st₂ : BusState) (message_id : Str),
      dictGet st₂.pending_requests message_id = some none →
      (request_finish st₂ message_id).2 = none ∧
      dictGet (request_finish st₂ message_id).1.pending_requests message_id = none) ∧
    (∀ (st₂ : BusState) (respId : Str) (orig : Message) (pl : Payload) (q : List Message),
      dictGet st₂.pending_requests orig.id = none →
      dictGet st₂.queues orig.sender_id = some q →
      dictGet (respond st₂ respId orig pl).1.queues orig.sender_id =
        some (q ++ [(respond st₂ respId orig pl).2])) := by
  refine ⟨⟨?_, ?_, ?_, ?_, ?_⟩, ?_, ?_, ?_⟩
  · unfold request_start send
    cases h : dictGet st.queues recipient_id <;> simp [h]
  · unfold request_start send
    cases h : dictGet st.queues recipient_id <;> simp [h]
  · unfold request_start send
    cases h : dictGet st.queues recipient_id <;> simp [h]
  · unfold request_start send
    cases h : dictGet st.queues recipient_id <;>
      simp [h, dictGet_dictSet_self]
  · intro q hq
    unfold request_start send
    simp [hq, dictGet_dictSet_self]
  · intro st₂ respId orig pl hpend
    unfold respond request_finish
    simp [hpend, dictGet_dictSet_self, dictGet_dictDel_self]
  · intro st₂ message_id hpend
    unfold request_finish
    simp [hpend, dictGet_dictDel_self]
  · intro st₂ respId orig pl q hpend hq
    unfold respond
    simp [hpend, hq, dictGet_dictSet_self]

/-- Witness for C7: a concrete request/respond round trip and a concrete
timeout, on a bus with agents `a` and `b` registered. -/
theorem C7_request_respond_witness :
    (request_start (register_agent (register_agent {} "a".toList) "b".toList)
      "m1".toList "a".toList "b".toList []).2.type = .request ∧
    dictGet (request_start (register_agent (register_agent {} "a".toList) "b".toList)
      "m1".toList "a".toList "b".toList []).1.pending_requests "m1".toList = some none ∧
    (request_finish (request_start (register_agent (register_agent {} "a".toList)
      "b".toList) "m1".toList "a".toList "b".toList []).1 "m1".toList).2 = none := by
  refine ⟨?_, ?_, ?_⟩
  · exact (C7_request_respond (register_agent (register_agent {} "a".toList) "b".toList)
      "m1".toList "a".toList "b".toList []).1.1
  · exact (C7_request_respond (register_agent (register_agent {} "a".toList) "b".toList)
      "m1".toList "a".toList "b".toList []).1.2.2.2.1
  · exact ((C7_request_respond (register_agent (register_agent {} "a".toList) "b".toList)
      "m1".toList "a".toList "b".toList []).2.2.1
      (request_start (register_agent (register_agent {} "a".toList) "b".toList)
        "m1".toList "a".toList "b".toList []).1 "m1".toList
      (by
        exact (C7_request_respond (register_agent (register_agent {} "a".toList)
          "b".toList) "m1".toList "a".toList "b".toList []).1.2.2.2.1)).1

/-- C8: `broadcast` invokes exactly the handlers subscribed to the exact
event type followed by every wildcard subscriber — `N_exact + N_wildcard`
invocations in total — each exactly once on the constructed event; a
handler's raise (an `Except.error` invocation outcome) never prevents the
remaining invocations, and the call always returns the constructed
event. -/
theorem C8_broadcast_delivery (st : BusState) (sender_id event_type : Str)
    (data : Payload) :
    (broadcast st sender_id event_type data).2 =
      (((dictGet st.event_subscriptions event_type).getD []) ++
       ((dictGet st.event_subscriptions "*".toList).getD [])).map
        (fun sub => (sub.1, sub.2 (broadcast st sender_id event_type data).1)) ∧
    (broadcast st sender_id event_type data).2.length =
      ((dictGet st.event_subscriptions event_type).getD []).length +
      ((dictGet st.event_subscriptions "*".toList).getD []).length ∧
    (∀ sub ∈ ((dictGet st.event_subscriptions event_type).getD []) ++
        ((dictGet st.event_subscriptions "*".toList).getD []),
      (sub.1, sub.2 (broadcast st sender_id event_type data).1) ∈
        (broadcast st sender_id event_type data).2) ∧
    (broadcast st sender_id event_type data).1 =
      { type := event_type, agent_id := some sender_id, data := data } := by
  refine ⟨?_, ?_, ?_, rfl⟩
  · simp [broadcast, List.map_append]
  · simp [broadcast]
  · intro sub hsub
    have hmem := List.mem_map_of_mem
      (fun sub => (sub.1, sub.2 (broadcast st sender_id event_type data).1)) hsub
    simpa [broadcast, List.map_append] using hmem

/-- Witness for C8: two exact-type subscribers (the first one raising)
plus one wildcard subscriber produce exactly three invocations, and the
raising handler does not prevent the later ones. -/
theorem C8_broadcast_delivery_witness :
    (broadcast
      ⟨[], [("price.updated".toList,
              [("a".toList, fun _ => .error "boom".toList),
               ("b".toList, fun _ => .ok ())]),
            ("*".toList, [("c".toList, fun _ => .ok ())])], []⟩
      "s".toList "price.updated".toList []).2.length = 3 := by
  rw [(C8_broadcast_delivery
    ⟨[], [("price.updated".toList,
            [("a".toList, fun _ => .error "boom".toList),
             ("b".toList, fun _ => .ok ())]),
          ("*".toList, [("c".toList, fun _ => .ok ())])], []⟩
    "s".toList "price.updated".toList []).2.1]
  rfl

/-! ## Tool-registry lemmas -/

theorem firstFailingCheck_eq_none_iff (capTable : CapTable) (agent_id : Str)
    (l : List Str) :
    firstFailingCheck capTable agent_id l = none ↔
      ∀ cs ∈ l, (checkStr capTable agent_id cs).allowed = true := by
  induction l with
  | nil => simp [firstFailingCheck]
  | cons cs rest ih =>
    by_cases h : (checkStr capTable agent_id cs).allowed = true
    · simp only [firstFailingCheck, h, if_true]
      rw [ih]
      constructor
      · intro hall cs' hcs'
        rcases List.mem_cons.mp hcs' with rfl | hcs'
        · exact h
        · exact hall cs' hcs'
      · intro hall cs' hcs'
        exact hall cs' (List.mem_cons_of_mem cs hcs')
    · simp only [firstFailingCheck, Bool.not_eq_true] at h ⊢
      simp only [h, Bool.false_eq_true, if_false]
      constructor
      · intro hc
        cases hc
      · intro hall
        exact absurd (hall cs (List.mem_cons_self cs rest)) (by simp [h])

theorem firstFailingCheck_first (capTable : CapTable) (agent_id : Str)
    (pre : List Str) (cs : Str) (post : List Str)
    (hpre : ∀ cs' ∈ pre, (checkStr capTable agent_id cs').allowed = true)
    (hcs : (checkStr capTable agent_id cs).allowed = false) :
    firstFailingCheck capTable agent_id (pre ++ cs :: post) =
      some (checkStr capTable agent_id cs) := by
  induction pre with
  | nil =>
    simp only [List.nil_append, firstFailingCheck, hcs, Bool.false_eq_true, if_false]
  | cons p rest ih =>
    have hp : (checkStr capTable agent_id p).allowed = true :=
      hpre p (List.mem_cons_self p rest)
    simp only [List.cons_append, firstFailingCheck, hp, if_true]
    exact ih (fun cs' hcs' => hpre cs' (List.mem_cons_of_mem p hcs'))

/-! ## Claim about the tool registry -/

/-- C3: `ToolRegistry.execute` — an unregistered tool name yields `ERROR`
immediately; otherwise each required capability string is split into a
(resource, path, action) triple and checked in order, and the first
failing check yields `DENIED` carrying that check's reason; if every
check passes the implementation is invoked, a raised timeout yields
`TIMEOUT`, any other raised failure yields `ERROR` with the message
preserved, and a normal return yields `SUCCESS` with the output. -/
theorem C3_execute_status (reg : ToolRegistry) (capTable : CapTable)
    (agent_id tool_name : Str) (parameters : Payload) :
    (dictGet reg.tools tool_name = none →
      execute reg capTable agent_id tool_name parameters =
        { tool_name := tool_name, status := .error,
          error := some ("Unknown tool: ".toList ++ tool_name) }) ∧
    (∀ schema, dictGet reg.tools tool_name = some schema →
      (∀ pre cs post, schema.required_capabilities = pre ++ cs :: post →
        (∀ cs' ∈ pre, (checkStr capTable agent_id cs').allowed = true) →
        (checkStr capTable agent_id cs).allowed = false →
        execute reg capTable agent_id tool_name parameters =
          { tool_name := tool_name, status := .denied,
            error := some ("Permission denied: ".toList ++
              (checkStr capTable agent_id cs).reason) }) ∧
      ((∀ cs ∈ schema.required_capabilities,
          (checkStr capTable agent_id cs).allowed = true) →
        ∀ impl, dictGet reg.implementations tool_name = some impl →
        (∀ output, impl parameters = .ok output →
          execute reg capTable agent_id tool_name parameters =
            { tool_name := tool_name, status := .success, output := some output }) ∧
        (impl parameters = .timeoutError →
          execute reg capTable agent_id tool_name parameters =
            { tool_name := tool_name, status := .timeout,
              error := some "Tool execution timed out".toList }) ∧
        (∀ msg, impl parameters = .raised msg →
          execute reg capTable agent_id tool_name parameters =
            { tool_name := tool_name, status := .error, error := some msg }))) := by
  constructor
  · intro h
    simp [execute, h]
  · intro schema hschema
    constructor
    · intro pre cs post hsplit hpre hcs
      have hfail := firstFailingCheck_first capTable agent_id pre cs post hpre hcs
      rw [← hsplit] at hfail
      simp [execute, hschema, hfail]
    · intro hall impl himpl
      have hnone := (firstFailingCheck_eq_none_iff capTable agent_id
        schema.required_capabilities).mpr hall
      refine ⟨?_, ?_, ?_⟩
      · intro output hout
        simp [execute, hschema, hnone, himpl, hout]
      · intro hout
        simp [execute, hschema, hnone, himpl, hout]
      · intro msg hout
        simp [execute, hschema, hnone, himpl, hout]

/-- Witness for C3: in `fixtureRegistry` the tool `file.read` requires
`file:/tmp/*:read`; agent `a` (granted `file:*:read`) passes the check
and the implementation's return is wrapped as `SUCCESS`; agent `b`, with
no grants, is denied. -/
theorem C3_execute_status_witness :
    (execute fixtureRegistry fixtureCaps "a".toList "file.read".toList []).status
      = .success ∧
    (execute fixtureRegistry [] "b".toList "file.read".toList []).status
      = .denied := by
  constructor
  · rw [((C3_execute_status fixtureRegistry fixtureCaps "a".toList
      "file.read".toList []).2 fileReadSchema (by decide)).2
      (by decide) fileReadImpl rfl |>.1 "data".toList rfl]
  · rw [((C3_execute_status fixtureRegistry [] "b".toList
      "file.read".toList []).2 fileReadSchema (by decide)).1
      [] "file:/tmp/*:read".toList [] rfl (by simp) (by decide)]

/-! ## Claim about the agent state machine -/

/-- C4: `run` is only permitted on a PENDING agent and moves it through
RUNNING to COMPLETED (loop returned with no unhandled failure) or FAILED
(the loop raised, with the error recorded); `run` on a non-PENDING agent
— including a second `run` after completion — is a hard failure;
`terminate` from RUNNING, PAUSED or PENDING moves the agent to
TERMINATED, revokes all its capabilities and unregisters its mailbox;
the terminal states COMPLETED, FAILED and TERMINATED admit no further
transition, and a second `terminate` is a no-op, not an error. -/
theorem C4_state_machine (rt : RuntimeState) (agent_id : Str) (agent : RtAgent)
    (hget : dictGet rt.agents agent_id = some agent) :
    (agent.state = .pending →
      (∃ rt', run rt agent_id (.ok .running) = .ok rt' ∧
        dictGet rt'.agents agent_id = some { agent with state := .completed }) ∧
      (∀ msg, ∃ rt', run rt agent_id (.raised msg) = .ok rt' ∧
        dictGet rt'.agents agent_id =
          some { agent with state := .failed, last_error := some msg })) ∧
    (agent.state ≠ .pending → ∀ loop, ∃ e, run rt agent_id loop = .error e) ∧
    (agent.state = .running ∨ agent.state = .paused ∨ agent.state = .pending →
      ∃ rt', terminate rt agent_id = .ok rt' ∧
        dictGet rt'.agents agent_id = some { agent with state := .terminated } ∧
        lookupCaps rt'.capabilities agent_id = [] ∧
        dictGet rt'.bus.queues agent_id = none) ∧
    (agent.state = .completed ∨ agent.state = .failed ∨ agent.state = .terminated →
      (∀ loop, ∃ e, run rt agent_id loop = .error e) ∧
      pause rt agent_id = .ok rt ∧
      resume rt agent_id = .ok rt ∧
      terminate rt agent_id = .ok rt) := by
  refine ⟨?_, ?_, ?_, ?_⟩
  · intro hpend
    constructor
    · have hrun : run rt agent_id (.ok .running) = .ok { rt with agents := dictSet rt.agents agent_id { agent with state := .completed } } := by
        simp [run, hget, hpend]
      exact ⟨_, hrun, dictGet_dictSet_self ..⟩
    · intro msg
      have hrun : run rt agent_id (.raised msg) = .ok { rt with agents := dictSet rt.agents agent_id { agent with state := .failed, last_error := some msg } } := by
        simp [run, hget, hpend]
      exact ⟨_, hrun, dictGet_dictSet_self ..⟩
  · intro hnp loop
    have hne : (agent.state != AgentState.pending) = true := by
      simpa using hnp
    refine ⟨"Agent ".toList ++ agent_id ++ " is not in PENDING state".toList, ?_⟩
    simp [run, hget, hne]
  · intro hs
    have hcond : (agent.state == AgentState.running || agent.state == AgentState.paused || agent.state == AgentState.pending) = true := by
      rcases hs with h | h | h <;> simp [h]
    have hterm : terminate rt agent_id = .ok { agents := dictSet rt.agents agent_id { agent with state := .terminated }, capabilities := revoke_all rt.capabilities agent_id, bus := unregister_agent rt.bus agent_id } := by
      simp [terminate, hget, hcond]
    exact ⟨_, hterm, dictGet_dictSet_self .., lookupCaps_revoke_all ..,
      dictGet_dictDel_self ..⟩
  · intro hs
    have hterm : (agent.state != AgentState.pending) = true := by
      rcases hs with h | h | h <;> simp [h]
    have hrun : (agent.state == AgentState.running) = false := by
      rcases hs with h | h | h <;> simp [h]
    have hpause : (agent.state == AgentState.paused) = false := by
      rcases hs with h | h | h <;> simp [h]
    have hpend : (agent.state == AgentState.pending) = false := by
      rcases hs with h | h | h <;> simp [h]
    refine ⟨?_, ?_, ?_, ?_⟩
    · intro loop
      refine ⟨"Agent ".toList ++ agent_id ++ " is not in PENDING state".toList, ?_⟩
      simp [run, hget, hterm]
    · simp [pause, hget, hrun]
    · simp [resume, hget, hpause]
    · simp [terminate, hget, hrun, hpause, hpend]

/-- Witness for C4 on a concrete runtime: a PENDING agent `a` completes
on a clean loop exit; terminating a RUNNING agent `b` (with one grant
and a registered mailbox) yields TERMINATED, no remaining grants and no
mailbox; a COMPLETED agent `c` rejects `run` and ignores a second
`terminate`. -/
theorem C4_state_machine_witness :
    (∃ rt', run { agents := [("a".toList, { state := .pending })] } "a".toList
        (.ok .running) = .ok rt' ∧
      dictGet rt'.agents "a".toList = some { state := AgentState.completed }) ∧
    (∃ rt', terminate
        { agents := [("b".toList, { state := .running })],
          capabilities := fixtureCaps,
          bus := register_agent {} "b".toList } "b".toList = .ok rt' ∧
      dictGet rt'.agents "b".toList = some { state := AgentState.terminated } ∧
      lookupCaps rt'.capabilities "b".toList = [] ∧
      dictGet rt'.bus.queues "b".toList = none) ∧
    (∃ e, run { agents := [("c".toList, { state := .completed })] } "c".toList
        (.ok .running) = .error e) ∧
    terminate { agents := [("c".toList, { state := .completed })] } "c".toList =
      .ok { agents := [("c".toList, { state := .completed })] } := by
  refine ⟨?_, ?_, ?_, ?_⟩
  · exact ((C4_state_machine { agents := [("a".toList, { state := .pending })] }
      "a".toList { state := .pending } rfl).1 rfl).1
  · exact (C4_state_machine
      { agents := [("b".toList, { state := .running })],
        capabilities := fixtureCaps,
        bus := register_agent {} "b".toList } "b".toList { state := .running }
      rfl).2.2.1 (Or.inl rfl)
  · exact ((C4_state_machine { agents := [("c".toList, { state := .completed })] }
      "c".toList { state := .completed } rfl).2.2.2 (Or.inl rfl)).1 (.ok .running)
  · exact ((C4_state_machine { agents := [("c".toList, { state := .completed })] }
      "c".toList { state := .completed } rfl).2.2.2 (Or.inl rfl)).2.2.2

end AgentOS
